import Mathlib

/-!
Verification of `src/backend/app/category_classifier.py`.

The Python functions are shallowly embedded as executable Lean
definitions.  Probabilities and confidence values are modelled as exact
rationals (the constants 0.40, 0.70 and 0.85 are the rationals 2/5,
7/10 and 17/20).  Strings are Lean strings; the regular-expression
substitutions of `_clean_text` are modelled character by character.
-/

namespace ExpenseTracker

/-- Configuration constant `CONFIDENCE_THRESHOLD = 0.40` (line 18). -/
def CONFIDENCE_THRESHOLD : ℚ := 2/5

/-- Configuration constant `MIN_SAMPLES_PER_CLASS = 3` (line 19). -/
def MIN_SAMPLES_PER_CLASS : Nat := 3

/-- The characters matched by the regex class `\s` (ASCII part).
Non-ASCII whitespace is substituted to `' '` by `substChar` below, which
produces the same normalized output. -/
def isWs (c : Char) : Bool :=
  c = ' ' || c = '\t' || c = '\n' || c = '\r' || c = '\x0b' || c = '\x0c'

/-- The character class `[a-z0-9]` of the regex on line 55. -/
def isLowerAlnum (c : Char) : Bool :=
  ('a' ≤ c && c ≤ 'z') || ('0' ≤ c && c ≤ '9')

/-- `str.lower()` on a single character (ASCII case mapping, which is
all that matters after the `[^a-z0-9\s]` substitution). -/
def lowerChar (c : Char) : Char :=
  if 'A' ≤ c ∧ c ≤ 'Z' then Char.ofNat (c.toNat + 32) else c

/-- One character of `text.lower()` followed by
`re.sub(r"[^a-z0-9\s]", " ", text)` (lines 54-55). -/
def substChar (c : Char) : Char :=
  if isLowerAlnum (lowerChar c) || isWs (lowerChar c) then lowerChar c else ' '

/-- `re.sub(r"\s+", " ", text)` (line 56): every maximal run of
whitespace becomes a single `' '`.  The flag records whether the
previous character belonged to a whitespace run. -/
def collapseGo : Bool → List Char → List Char
  | _, [] => []
  | prevWs, c :: cs =>
    if isWs c then
      if prevWs then collapseGo true cs else ' ' :: collapseGo true cs
    else c :: collapseGo false cs

/-- `str.strip()` (lines 56, 67): drop leading and trailing whitespace. -/
def stripChars (cs : List Char) : List Char :=
  (((cs.dropWhile fun c => isWs c).reverse.dropWhile fun c => isWs c)).reverse

/-- `_clean_text` on the underlying character list (lines 54-57). -/
def cleanChars (cs : List Char) : List Char :=
  stripChars (collapseGo false (cs.map substChar))

/-- `CategoryClassifier._clean_text` (lines 51-57). -/
def cleanText (s : String) : String :=
  if s = "" then "" else ⟨cleanChars s.data⟩

/-- `str.strip()` on a string. -/
def stripString (s : String) : String := ⟨stripChars s.data⟩

/-- `CategoryClassifier._combine` (lines 62-67):
`f"{d} {d} {m}".strip()` with `d`, `m` the cleaned inputs. -/
def combine (description merchant : String) : String :=
  let d := cleanText description
  let m := cleanText merchant
  stripString (d ++ " " ++ d ++ " " ++ m)

/-- `len(text.split())` (line 199): number of maximal non-whitespace
runs.  The flag records whether we are inside a word. -/
def countWordsGo : Bool → List Char → Nat
  | _, [] => 0
  | inWord, c :: cs =>
    if isWs c then countWordsGo false cs
    else (if inWord then 0 else 1) + countWordsGo true cs

/-- `len(text.split())` for a string. -/
def countWords (s : String) : Nat := countWordsGo false s.data

/-- `np.max(proba)` (line 196); `predict_proba` never yields an empty
row, so the value on `[]` is irrelevant. -/
def listMax : List ℚ → ℚ
  | [] => 0
  | [x] => x
  | x :: y :: xs => max x (listMax (y :: xs))

/-- `np.argmax(proba)` (line 195): the first index attaining the
maximum. -/
def argmaxIdx : List ℚ → Nat
  | [] => 0
  | [_] => 0
  | x :: y :: xs =>
    if listMax (y :: xs) ≤ x then 0 else argmaxIdx (y :: xs) + 1

/-- A fitted sklearn pipeline, abstracted to what `predict` and
`get_top_predictions` consume: the class vocabulary `classes_` and, for
each input text, the probability row `predict_proba([text])[0]`
(aligned index by index with `classes`). -/
structure Pipeline where
  classes : List String
  proba : String → List ℚ

/-- The `CategoryClassifier` state: its `pipeline` attribute, `none`
when no model is loaded. -/
structure Classifier where
  pipeline : Option Pipeline

/-- The errors `predict`/`get_top_predictions` can raise
(`RuntimeError("Model not loaded")`, line 187/217). -/
inductive PredictError
  | modelNotLoaded
deriving DecidableEq

deriving instance DecidableEq for Except

/-- `CategoryClassifier.predict` (lines 185-209).  Class lookup
`classes_[np.argmax(proba)]` is modelled with `getD`; in sklearn
`classes_` and the probability row always have equal length, so the
default is unreachable there. -/
def predict (c : Classifier) (description : String) (merchant : String) :
    Except PredictError (String × ℚ) :=
  match c.pipeline with
  | none => .error .modelNotLoaded
  | some pl =>
    let text := combine description merchant
    if text = "" then .ok ("Other", 0)
    else
      let proba := pl.proba text
      let pred := pl.classes.getD (argmaxIdx proba) ""
      let confidence := listMax proba
      let wordCount := countWords text
      let confidence :=
        if wordCount ≤ 1 then confidence * (7/10)
        else if wordCount = 2 then confidence * (17/20)
        else confidence
      if confidence < CONFIDENCE_THRESHOLD then .ok ("Other", confidence)
      else .ok (pred, confidence)

/-- The slicing `a[-n:]` of a list for a natural `n` (line 227):
`a[-0:]` is the whole list, and for `n ≥ len(a)` the slice is also the
whole list. -/
def sliceLast (n : Nat) (l : List α) : List α :=
  if n = 0 then l else l.drop (l.length - n)

/-- The key order underlying `np.argsort(proba)`: index `i` precedes
index `j` when `proba[i] ≤ proba[j]`. -/
def leKey (l : List ℚ) (i j : Nat) : Prop := l.getD i 0 ≤ l.getD j 0

instance (l : List ℚ) : DecidableRel (leKey l) :=
  fun _ _ => inferInstanceAs (Decidable (_ ≤ _))

instance (l : List ℚ) : IsTotal Nat (leKey l) :=
  ⟨fun _ _ => le_total _ _⟩

instance (l : List ℚ) : IsTrans Nat (leKey l) :=
  ⟨fun _ _ _ => le_trans⟩

/-- `np.argsort(proba)` (line 227): the indices `0..len-1` sorted by
ascending probability.  numpy's quicksort leaves the order of ties
unspecified; a stable sort realizes one admissible order. -/
def argsortAsc (l : List ℚ) : List Nat :=
  List.insertionSort (leKey l) (List.range l.length)

/-- `CategoryClassifier.get_top_predictions` (lines 214-228). -/
def get_top_predictions (c : Classifier) (description : String)
    (merchant : String) (top_n : Nat) :
    Except PredictError (List (String × ℚ)) :=
  match c.pipeline with
  | none => .error .modelNotLoaded
  | some pl =>
    let text := combine description merchant
    if text = "" then .ok [("Other", 0)]
    else
      let proba := pl.proba text
      let classes := pl.classes
      let topIndices := (sliceLast top_n (argsortAsc proba)).reverse
      .ok (topIndices.map fun i => (classes.getD i "", proba.getD i 0))

/-! ### Training (`_train_and_save`, lines 72-180)

A dataset row of `transactions.csv`; `none` models a missing (NaN)
value, filled by `fillna("")` on lines 79-80. -/

structure Row where
  description : Option String
  merchant : Option String
  category : String

/-- The loaded dataframe: which of the required columns are present,
and its rows. -/
structure Dataset where
  hasDescription : Bool
  hasMerchant : Bool
  hasCategory : Bool
  rows : List Row

/-- The ways `_train_and_save` can terminate abnormally.
`schemaError` is the explicit `ValueError` on line 77.  `libraryError`
stands for an exception raised inside the sklearn calls (the stratified
`train_test_split` / `LogisticRegression.fit` on lines 102-149 raise a
`ValueError` when fewer than two distinct classes remain).
`writeError` stands for an exception raised by `joblib.dump` on line
173.  `insufficientDataError` is the error the specification names; the
source contains no corresponding `raise` site and no such exception
class, so no code path below produces it. -/
inductive TrainError
  | schemaError
  | insufficientDataError
  | libraryError
  | writeError
deriving DecidableEq

/-- The feature text of a row (line 83-86). -/
def rowText (r : Row) : String :=
  combine (r.description.getD "") (r.merchant.getD "")

/-- Lines 79-92: fill missing description/merchant, strip the category,
drop rows with empty feature text, then drop every category whose
count (computed on the remaining rows, line 91) is below
`MIN_SAMPLES_PER_CLASS`. -/
def trainFilteredRows (ds : Dataset) : List Row :=
  let rows := ds.rows.map fun r =>
    { description := some (r.description.getD "")
      merchant := some (r.merchant.getD "")
      category := stripString r.category }
  let rows := rows.filter fun r => rowText r ≠ ""
  rows.filter fun r =>
    MIN_SAMPLES_PER_CLASS ≤ (rows.filter fun q => q.category = r.category).length

/-- The distinct categories among a list of rows
(`df["category"].nunique()`). -/
def distinctCategories (rows : List Row) : List String :=
  (rows.map fun r => r.category).dedup

/-- `_train_and_save` (lines 72-180) acting on the classifier state.
The numerical candidate fitting and selection (lines 109-170) is not
representable in a shallow embedding and is abstracted by the `best`
parameter, the selected best pipeline.  `dumpOk` records whether
`joblib.dump` (line 173) succeeds.  The result pairs the classifier
state after the call with the exception that propagated, if any: an
uncaught exception leaves `self.pipeline` untouched, because the
assignment `self.pipeline = best_pipeline` (line 179) is only reached
after a successful dump, and the function body contains no
`try`/`except`. -/
def train_and_save (c : Classifier) (ds : Dataset) (best : Pipeline)
    (dumpOk : Bool) : Classifier × Option TrainError :=
  if ds.hasDescription && ds.hasMerchant && ds.hasCategory then
    let rows := trainFilteredRows ds
    if (distinctCategories rows).length < 2 then (c, some .libraryError)
    else if dumpOk then ({ pipeline := some best }, none)
    else (c, some .writeError)
  else (c, some .schemaError)

/-- The length-based confidence discount of `predict` (lines 199-203),
written as a factor: one token (the source tests `word_count <= 1`, and
a non-empty feature text has at least one token) gives 0.70, two tokens
give 0.85, three or more give 1. -/
def discountFactor (n : Nat) : ℚ :=
  if n ≤ 1 then 7/10 else if n = 2 then 17/20 else 1

/-- A concrete fitted pipeline used to witness the predictor theorems:
three classes whose probability row is constantly
`[0.35, 0.33, 0.32]`. -/
def examplePipeline : Pipeline :=
  ⟨["Food", "Travel", "Bills"], fun _ => [7/20, 33/100, 32/100]⟩

/-- A classifier that has loaded `examplePipeline`. -/
def exampleClassifier : Classifier := ⟨some examplePipeline⟩

/-- A concrete dataset whose rows all carry the single category "A". -/
def dsSingleClass : Dataset :=
  ⟨true, true, true,
    [⟨some "coffee shop", some "cafe", "A"⟩,
     ⟨some "more coffee", some "cafe", "A"⟩,
     ⟨some "espresso bar", some "cafe", "A"⟩]⟩

/-- A concrete dataset with two categories of three rows each, so both
survive the minimum-samples filter. -/
def dsTwoClass : Dataset :=
  ⟨true, true, true,
    [⟨some "coffee shop", some "cafe", "A"⟩,
     ⟨some "more coffee", some "cafe", "A"⟩,
     ⟨some "espresso bar", some "cafe", "A"⟩,
     ⟨some "bus ticket", some "metro", "B"⟩,
     ⟨some "train ride", some "metro", "B"⟩,
     ⟨some "taxi fare", some "metro", "B"⟩]⟩

/-! ### Invariants of the text normalizer -/

/-- Adjacent characters of a normalized string are never both spaces. -/
def NoTwoSpaces (cs : List Char) : Prop :=
  cs.Chain' fun x y => ¬(x = ' ' ∧ y = ' ')

theorem ws_not_alnum {c : Char} (h : isWs c = true) : isLowerAlnum c = false := by
  simp only [isWs, Bool.or_eq_true, decide_eq_true_eq] at h
  rcases h with ((((h | h) | h) | h) | h) | h <;> subst h <;> decide

theorem alnum_not_ws {c : Char} (h : isLowerAlnum c = true) : isWs c = false := by
  cases hw : isWs c with
  | false => rfl
  | true => rw [ws_not_alnum hw] at h; exact absurd h (by simp)

theorem substChar_charset (c : Char) :
    isLowerAlnum (substChar c) = true ∨ isWs (substChar c) = true := by
  unfold substChar
  by_cases h : (isLowerAlnum (lowerChar c) || isWs (lowerChar c)) = true
  · rw [if_pos h]
    exact Bool.or_eq_true _ _ |>.mp h
  · rw [if_neg h]
    right
    decide

theorem collapseGo_cons_ws {a : Char} {cs : List Char} (h : isWs a = true) (b : Bool) :
    collapseGo b (a :: cs) =
      if b then collapseGo true cs else ' ' :: collapseGo true cs := by
  cases b <;> simp [collapseGo, h]

theorem collapseGo_cons_not_ws {a : Char} {cs : List Char} (h : ¬isWs a = true) (b : Bool) :
    collapseGo b (a :: cs) = a :: collapseGo false cs := by
  cases b <;> simp [collapseGo, h]

theorem collapseGo_charset (cs : List Char) :
    ∀ b, (∀ c ∈ cs, isLowerAlnum c = true ∨ isWs c = true) →
      ∀ c ∈ collapseGo b cs, isLowerAlnum c = true ∨ c = ' ' := by
  induction cs with
  | nil => intro b _ c hc; simp [collapseGo] at hc
  | cons a cs ih =>
    intro b h c hc
    have ha := h a (List.mem_cons_self a cs)
    have ht := fun x hx => h x (List.mem_cons_of_mem _ hx)
    by_cases hws : isWs a = true
    · rw [collapseGo_cons_ws hws] at hc
      cases b with
      | true => exact ih true ht c (by simpa using hc)
      | false =>
        simp only [if_neg Bool.false_ne_true] at hc
        rcases List.mem_cons.mp hc with rfl | hc
        · right; rfl
        · exact ih true ht c hc
    · rw [collapseGo_cons_not_ws hws] at hc
      rcases List.mem_cons.mp hc with rfl | hc
      · rcases ha with ha | ha
        · exact Or.inl ha
        · exact absurd ha hws
      · exact ih false ht c hc

theorem collapseGo_true_head (cs : List Char) :
    ∀ c, (collapseGo true cs).head? = some c → isWs c = false := by
  induction cs with
  | nil => intro c hc; simp [collapseGo] at hc
  | cons a cs ih =>
    intro c hc
    by_cases hws : isWs a = true
    · rw [collapseGo_cons_ws hws, if_pos rfl] at hc
      exact ih c hc
    · rw [collapseGo_cons_not_ws hws] at hc
      simp only [List.head?_cons, Option.some.injEq] at hc
      subst hc
      simpa using hws

theorem collapseGo_chain (cs : List Char) :
    ∀ b, (collapseGo b cs).Chain' (fun x y => ¬(x = ' ' ∧ y = ' ')) := by
  induction cs with
  | nil => intro b; simp [collapseGo]
  | cons a cs ih =>
    intro b
    by_cases hws : isWs a = true
    · rw [collapseGo_cons_ws hws]
      cases b with
      | true => rw [if_pos rfl]; exact ih true
      | false =>
        simp only [if_neg Bool.false_ne_true]
        refine List.chain'_cons'.mpr ⟨?_, ih true⟩
        rintro y hy ⟨-, rfl⟩
        have := collapseGo_true_head cs ' ' hy
        simp [isWs] at this
    · rw [collapseGo_cons_not_ws hws]
      refine List.chain'_cons'.mpr ⟨?_, ih false⟩
      rintro y hy ⟨rfl, -⟩
      exact hws (by decide)

theorem head?_dropWhile_false {α} (p : α → Bool) :
    ∀ (l : List α) (c : α), (l.dropWhile p).head? = some c → p c = false := by
  intro l
  induction l with
  | nil => intro c hc; simp at hc
  | cons a l ih =>
    intro c hc
    by_cases hp : p a = true
    · rw [List.dropWhile_cons, if_pos hp] at hc
      exact ih c hc
    · rw [List.dropWhile_cons, if_neg hp] at hc
      simp only [List.head?_cons, Option.some.injEq] at hc
      subst hc
      simpa using hp

theorem getLast?_dropWhile {α} (p : α → Bool) :
    ∀ l : List α, l.dropWhile p ≠ [] → (l.dropWhile p).getLast? = l.getLast? := by
  intro l
  induction l with
  | nil => intro h; simp at h
  | cons a l ih =>
    intro h
    by_cases hp : p a = true
    · rw [List.dropWhile_cons, if_pos hp] at h ⊢
      rw [ih h]
      cases l with
      | nil => rw [List.dropWhile_nil] at h; exact absurd rfl h
      | cons b l => rw [List.getLast?_cons_cons]
    · rw [List.dropWhile_cons, if_neg hp]

theorem chain'_dropWhile {α} {R : α → α → Prop} (p : α → Bool) :
    ∀ l : List α, l.Chain' R → (l.dropWhile p).Chain' R := by
  intro l
  induction l with
  | nil => intro h; exact h
  | cons a l ih =>
    intro h
    by_cases hp : p a = true
    · rw [List.dropWhile_cons, if_pos hp]
      exact ih h.tail
    · rw [List.dropWhile_cons, if_neg hp]
      exact h

theorem stripChars_subset {cs : List Char} : ∀ c ∈ stripChars cs, c ∈ cs := by
  intro c hc
  unfold stripChars at hc
  rw [List.mem_reverse] at hc
  have hc := (List.dropWhile_sublist _).subset hc
  rw [List.mem_reverse] at hc
  exact (List.dropWhile_sublist _).subset hc

theorem stripChars_chain {cs : List Char} (h : NoTwoSpaces cs) :
    NoTwoSpaces (stripChars cs) := by
  unfold NoTwoSpaces stripChars
  have h1 := chain'_dropWhile (fun c => isWs c) cs h
  have h2 : ((cs.dropWhile fun c => isWs c).reverse.Chain'
      fun x y => ¬(x = ' ' ∧ y = ' ')) := by
    rw [List.chain'_reverse]
    exact h1.imp fun a b hab ⟨h3, h4⟩ => hab ⟨h4, h3⟩
  have h3 := chain'_dropWhile (fun c => isWs c) _ h2
  rw [List.chain'_reverse]
  exact h3.imp fun a b hab ⟨h4, h5⟩ => hab ⟨h5, h4⟩

theorem stripChars_head? {cs : List Char} {c : Char}
    (h : (stripChars cs).head? = some c) : isWs c = false := by
  unfold stripChars at h
  rw [List.head?_reverse] at h
  have hne : ((cs.dropWhile fun c => isWs c).reverse.dropWhile fun c => isWs c) ≠ [] := by
    intro h0; rw [h0] at h; exact Option.noConfusion h
  rw [getLast?_dropWhile _ _ hne, List.getLast?_reverse] at h
  exact head?_dropWhile_false _ _ _ h

theorem stripChars_getLast? {cs : List Char} {c : Char}
    (h : (stripChars cs).getLast? = some c) : isWs c = false := by
  unfold stripChars at h
  rw [List.getLast?_reverse] at h
  exact head?_dropWhile_false _ _ _ h

theorem cleanChars_charset (cs : List Char) :
    ∀ c ∈ cleanChars cs, isLowerAlnum c = true ∨ c = ' ' := by
  intro c hc
  have hc := stripChars_subset c hc
  refine collapseGo_charset _ false ?_ c hc
  intro x hx
  rcases List.mem_map.mp hx with ⟨y, -, rfl⟩
  exact substChar_charset y

theorem cleanChars_head? (cs : List Char) {c : Char}
    (h : (cleanChars cs).head? = some c) : isWs c = false :=
  stripChars_head? h

theorem cleanChars_getLast? (cs : List Char) {c : Char}
    (h : (cleanChars cs).getLast? = some c) : isWs c = false :=
  stripChars_getLast? h

theorem cleanChars_chain (cs : List Char) : NoTwoSpaces (cleanChars cs) :=
  stripChars_chain (collapseGo_chain _ false)

theorem collapseGo_true_allWs (cs : List Char) :
    (∀ c ∈ cs, isWs c = true) → collapseGo true cs = [] := by
  induction cs with
  | nil => intro _; rfl
  | cons a cs ih =>
    intro h
    rw [collapseGo_cons_ws (h a (List.mem_cons_self a cs)), if_pos rfl]
    exact ih fun x hx => h x (List.mem_cons_of_mem _ hx)

theorem cleanChars_allWs (cs : List Char)
    (h : ∀ c ∈ cs, isLowerAlnum (lowerChar c) = false) : cleanChars cs = [] := by
  have hw : ∀ c ∈ cs.map substChar, isWs c = true := by
    intro c hc
    rcases List.mem_map.mp hc with ⟨y, hy, rfl⟩
    unfold substChar
    rw [h y hy, Bool.false_or]
    by_cases hws : isWs (lowerChar y) = true
    · rw [if_pos hws]; exact hws
    · rw [if_neg hws]; decide
  unfold cleanChars
  cases hcs : cs.map substChar with
  | nil => decide
  | cons a l =>
    rw [hcs] at hw
    rw [collapseGo_cons_ws (hw a (List.mem_cons_self a l)),
      if_neg Bool.false_ne_true,
      collapseGo_true_allWs l fun x hx => hw x (List.mem_cons_of_mem _ hx)]
    decide

theorem lowerChar_fixed {c : Char} (h : isLowerAlnum c = true ∨ c = ' ') :
    lowerChar c = c := by
  rcases h with h | rfl
  · simp only [isLowerAlnum, Bool.or_eq_true, Bool.and_eq_true,
      decide_eq_true_eq] at h
    unfold lowerChar
    rcases h with ⟨h1, -⟩ | ⟨-, h2⟩
    · rw [if_neg]
      rintro ⟨-, hz⟩
      exact absurd (le_trans h1 hz) (by decide)
    · rw [if_neg]
      rintro ⟨hA, -⟩
      exact absurd (le_trans hA h2) (by decide)
  · decide

theorem substChar_fixed {c : Char} (h : isLowerAlnum c = true ∨ c = ' ') :
    substChar c = c := by
  have hl := lowerChar_fixed h
  unfold substChar
  rw [hl]
  rcases h with h | rfl
  · rw [if_pos (by rw [h]; rfl)]
  · decide

theorem map_substChar_fixed (cs : List Char)
    (h : ∀ c ∈ cs, isLowerAlnum c = true ∨ c = ' ') : cs.map substChar = cs := by
  induction cs with
  | nil => rfl
  | cons a cs ih =>
    rw [List.map_cons, substChar_fixed (h a (List.mem_cons_self a cs)),
      ih fun x hx => h x (List.mem_cons_of_mem _ hx)]

theorem collapseGo_fixed (cs : List Char) :
    ∀ b, (∀ c ∈ cs, isLowerAlnum c = true ∨ c = ' ') → NoTwoSpaces cs →
      (b = true → cs.head? ≠ some ' ') → collapseGo b cs = cs := by
  induction cs with
  | nil => intro b _ _ _; rfl
  | cons a cs ih =>
    intro b hset hchain hhead
    have ha := hset a (List.mem_cons_self a cs)
    have htl := fun x hx => hset x (List.mem_cons_of_mem _ hx)
    have hchain' := List.chain'_cons'.mp hchain
    by_cases hws : isWs a = true
    · have hsp : a = ' ' := by
        rcases ha with ha | ha
        · rw [ws_not_alnum hws] at ha; exact absurd ha (by simp)
        · exact ha
      subst hsp
      cases b with
      | true =>
        exact absurd (rfl : (' ' :: cs).head? = some ' ') (hhead rfl)
      | false =>
        rw [collapseGo_cons_ws hws, if_neg Bool.false_ne_true]
        rw [ih true htl (List.Chain'.tail hchain) ?_]
        intro _ hcs
        exact hchain'.1 ' ' (Option.mem_def.mpr hcs) ⟨rfl, rfl⟩
    · rw [collapseGo_cons_not_ws hws]
      rw [ih false htl (List.Chain'.tail hchain) (by simp)]

theorem dropWhile_ws_fixed (cs : List Char)
    (hset : ∀ c ∈ cs, isLowerAlnum c = true ∨ c = ' ')
    (hhead : cs.head? ≠ some ' ') : (cs.dropWhile fun c => isWs c) = cs := by
  cases cs with
  | nil => rfl
  | cons a cs =>
    rw [List.dropWhile_cons, if_neg]
    intro hws
    have hsp : a = ' ' := by
      rcases hset a (List.mem_cons_self a cs) with ha | ha
      · rw [ws_not_alnum hws] at ha; exact absurd ha (by simp)
      · exact ha
    exact hhead (by rw [hsp]; rfl)

theorem stripChars_fixed (cs : List Char)
    (hset : ∀ c ∈ cs, isLowerAlnum c = true ∨ c = ' ')
    (hhead : cs.head? ≠ some ' ') (hlast : cs.getLast? ≠ some ' ') :
    stripChars cs = cs := by
  unfold stripChars
  rw [dropWhile_ws_fixed cs hset hhead]
  rw [dropWhile_ws_fixed cs.reverse
    (fun c hc => hset c (List.mem_reverse.mp hc))
    (by rw [List.head?_reverse]; exact hlast)]
  exact List.reverse_reverse cs

theorem cleanChars_fixed (cs : List Char)
    (hset : ∀ c ∈ cs, isLowerAlnum c = true ∨ c = ' ')
    (hchain : NoTwoSpaces cs)
    (hhead : cs.head? ≠ some ' ') (hlast : cs.getLast? ≠ some ' ') :
    cleanChars cs = cs := by
  unfold cleanChars
  rw [map_substChar_fixed cs hset,
    collapseGo_fixed cs false hset hchain (by simp)]
  exact stripChars_fixed cs hset hhead hlast

/-! ### Claim theorems for the text normalizer -/

/-- C7: for every input string, the output of `normalize` (the
embedding `cleanText` of `_clean_text`) contains only lower-case
alphanumeric characters and spaces, never two adjacent spaces, and has
no leading or trailing whitespace; an input with no alphanumeric
character (empty, all punctuation, or all whitespace) normalizes to the
empty string. -/
theorem normalize_output_invariant (s : String) :
    (∀ c ∈ (cleanText s).data, isLowerAlnum c = true ∨ c = ' ') ∧
    (cleanText s).data.head? ≠ some ' ' ∧
    (cleanText s).data.getLast? ≠ some ' ' ∧
    NoTwoSpaces (cleanText s).data ∧
    ((∀ c ∈ s.data, isLowerAlnum (lowerChar c) = false) → cleanText s = "") := by
  by_cases hs : s = ""
  · subst hs
    exact ⟨by simp [cleanText], by simp [cleanText], by simp [cleanText],
      by simp [cleanText, NoTwoSpaces], fun _ => rfl⟩
  · have hd : (cleanText s).data = cleanChars s.data := by
      simp only [cleanText, if_neg hs]
    refine ⟨?_, ?_, ?_, ?_, ?_⟩
    · rw [hd]; exact cleanChars_charset s.data
    · rw [hd]; intro h
      exact absurd (cleanChars_head? s.data h) (by decide)
    · rw [hd]; intro h
      exact absurd (cleanChars_getLast? s.data h) (by decide)
    · rw [hd]; exact cleanChars_chain s.data
    · intro h
      simp only [cleanText, if_neg hs]
      rw [cleanChars_allWs s.data h]

/-- Witness for C7 at a concrete all-punctuation input. -/
theorem normalize_output_invariant_w : cleanText "@#!" = "" :=
  (normalize_output_invariant "@#!").2.2.2.2 (by decide)

theorem cleanText_eq_of_ne {s : String} (h : s ≠ "") :
    cleanText s = ⟨cleanChars s.data⟩ := by
  simp only [cleanText, if_neg h]

/-- C8: `normalize` is idempotent. -/
theorem normalize_idempotent (x : String) :
    cleanText (cleanText x) = cleanText x := by
  by_cases hx : cleanText x = ""
  · rw [hx]; rfl
  · have hxne : x ≠ "" := by
      rintro rfl; exact hx rfl
    have hd : (cleanText x).data = cleanChars x.data := by
      rw [cleanText_eq_of_ne hxne]
    have hfix : cleanChars (cleanChars x.data) = cleanChars x.data := by
      refine cleanChars_fixed _ (cleanChars_charset _) (cleanChars_chain _) ?_ ?_
      · intro h; exact absurd (cleanChars_head? x.data h) (by decide)
      · intro h; exact absurd (cleanChars_getLast? x.data h) (by decide)
    rw [cleanText_eq_of_ne hx, hd, hfix, ← hd]

/-- C6: `build_feature_text` (the embedding `combine` of `_combine`)
is the space-joined, trimmed concatenation of the normalized
description taken twice and the normalized merchant, and on
`("coffee", "Starbucks")` it yields exactly `"coffee coffee starbucks"`. -/
theorem build_feature_text_spec :
    (∀ d m : String, combine d m =
      stripString (cleanText d ++ " " ++ cleanText d ++ " " ++ cleanText m)) ∧
    combine "coffee" "Starbucks" = "coffee coffee starbucks" :=
  ⟨fun _ _ => rfl, by decide⟩

/-! ### The predictor -/

theorem argmaxIdx_lt : ∀ l : List ℚ, l ≠ [] → argmaxIdx l < l.length
  | [], h => absurd rfl h
  | [_], _ => by simp [argmaxIdx]
  | x :: y :: xs, _ => by
    unfold argmaxIdx
    by_cases h : listMax (y :: xs) ≤ x
    · rw [if_pos h]
      simp
    · rw [if_neg h]
      have := argmaxIdx_lt (y :: xs) (by simp)
      simpa [Nat.succ_lt_succ_iff] using this

theorem discountFactor_one {n : Nat} (h : n = 1) : discountFactor n = 7/10 := by
  subst h; rfl

theorem discountFactor_two {n : Nat} (h : n = 2) : discountFactor n = 17/20 := by
  subst h; rfl

theorem discountFactor_ge3 {n : Nat} (h : 3 ≤ n) : discountFactor n = 1 := by
  unfold discountFactor
  rw [if_neg (by omega), if_neg (by omega)]

/-- `predict` on a loaded pipeline and empty feature text. -/
theorem predict_empty (c : Classifier) (pl : Pipeline) (d m : String)
    (hpl : c.pipeline = some pl) (he : combine d m = "") :
    predict c d m = Except.ok ("Other", 0) := by
  simp only [predict, hpl, he, if_pos]

/-- `predict` on a loaded pipeline and non-empty feature text: the raw
confidence is the maximum probability, the discount factor is applied,
and the threshold decides between the catch-all and the argmax class. -/
theorem predict_eq (c : Classifier) (pl : Pipeline) (d m : String)
    (hpl : c.pipeline = some pl) (hne : combine d m ≠ "") :
    predict c d m =
      if listMax (pl.proba (combine d m)) * discountFactor (countWords (combine d m)) <
          CONFIDENCE_THRESHOLD then
        Except.ok ("Other",
          listMax (pl.proba (combine d m)) * discountFactor (countWords (combine d m)))
      else
        Except.ok (pl.classes.getD (argmaxIdx (pl.proba (combine d m))) "",
          listMax (pl.proba (combine d m)) * discountFactor (countWords (combine d m))) := by
  have hconf :
      (if countWords (combine d m) ≤ 1 then
        listMax (pl.proba (combine d m)) * (7/10)
       else if countWords (combine d m) = 2 then
        listMax (pl.proba (combine d m)) * (17/20)
       else listMax (pl.proba (combine d m))) =
        listMax (pl.proba (combine d m)) * discountFactor (countWords (combine d m)) := by
    unfold discountFactor
    by_cases h1 : countWords (combine d m) ≤ 1
    · rw [if_pos h1, if_pos h1]
    · rw [if_neg h1, if_neg h1]
      by_cases h2 : countWords (combine d m) = 2
      · rw [if_pos h2, if_pos h2]
      · rw [if_neg h2, if_neg h2, mul_one]
  simp only [predict, hpl, if_neg hne]
  rw [hconf]

/-- C1: for non-empty feature text, `predict` takes the class of
maximum probability and that probability as raw confidence, multiplies
by the length-discount factor, and returns the catch-all "Other" with
the discounted confidence when it is below the 0.40 threshold, the raw
predicted class with the discounted confidence otherwise. -/
theorem predict_threshold_decision (c : Classifier) (pl : Pipeline) (d m : String)
    (hpl : c.pipeline = some pl) (hne : combine d m ≠ "") :
    predict c d m =
      if listMax (pl.proba (combine d m)) * discountFactor (countWords (combine d m)) <
          CONFIDENCE_THRESHOLD then
        Except.ok ("Other",
          listMax (pl.proba (combine d m)) * discountFactor (countWords (combine d m)))
      else
        Except.ok (pl.classes.getD (argmaxIdx (pl.proba (combine d m))) "",
          listMax (pl.proba (combine d m)) * discountFactor (countWords (combine d m))) :=
  predict_eq c pl d m hpl hne

/-- Witness for C1, matching the claim's concrete instance: the input
has six tokens (three or more, so no discount) and raw confidence 0.35,
and `predict` returns ("Other", 0.35). -/
theorem predict_threshold_decision_w :
    predict exampleClassifier "bus ticket fare" "" = Except.ok ("Other", 7/20) := by
  rw [predict_threshold_decision exampleClassifier examplePipeline "bus ticket fare" ""
    rfl (by decide)]
  with_unfolding_all decide

/-- C2: for non-empty feature text, the returned confidence is the raw
maximum probability multiplied by 0.70 for exactly one token, by 0.85
for exactly two tokens, and unmodified for three or more tokens. -/
theorem predict_length_discount (c : Classifier) (pl : Pipeline) (d m : String)
    (hpl : c.pipeline = some pl) (hne : combine d m ≠ "") :
    ∃ cat conf, predict c d m = Except.ok (cat, conf) ∧
      (countWords (combine d m) = 1 →
        conf = listMax (pl.proba (combine d m)) * (7/10)) ∧
      (countWords (combine d m) = 2 →
        conf = listMax (pl.proba (combine d m)) * (17/20)) ∧
      (3 ≤ countWords (combine d m) →
        conf = listMax (pl.proba (combine d m))) := by
  by_cases hlt : listMax (pl.proba (combine d m)) *
      discountFactor (countWords (combine d m)) < CONFIDENCE_THRESHOLD
  · refine ⟨"Other", _,
      by rw [predict_eq c pl d m hpl hne, if_pos hlt], ?_, ?_, ?_⟩
    · intro h; rw [discountFactor_one h]
    · intro h; rw [discountFactor_two h]
    · intro h; rw [discountFactor_ge3 h, mul_one]
  · refine ⟨_, _,
      by rw [predict_eq c pl d m hpl hne, if_neg hlt], ?_, ?_, ?_⟩
    · intro h; rw [discountFactor_one h]
    · intro h; rw [discountFactor_two h]
    · intro h; rw [discountFactor_ge3 h, mul_one]

/-- Witness for C2: "coffee coffee" has exactly two tokens, so the
returned confidence is 0.35 * 0.85 = 0.2975. -/
theorem predict_length_discount_w :
    ∃ cat, predict exampleClassifier "coffee" "" = Except.ok (cat, 119/400) := by
  obtain ⟨cat, conf, heq, -, h2, -⟩ :=
    predict_length_discount exampleClassifier examplePipeline "coffee" "" rfl (by decide)
  refine ⟨cat, ?_⟩
  rw [heq, h2 (by decide)]
  have : listMax (examplePipeline.proba (combine "coffee" "")) * (17/20) = 119/400 := by
    with_unfolding_all decide
  rw [this]

/-- C5: empty feature text short-circuits to ("Other", 0.0).  The
statement holds for every loaded pipeline `pl`, and the returned value
does not depend on `pl`: the model is not consulted. -/
theorem predict_empty_shortcircuit (c : Classifier) (pl : Pipeline) (d m : String)
    (hpl : c.pipeline = some pl) (he : combine d m = "") :
    predict c d m = Except.ok ("Other", 0) :=
  predict_empty c pl d m hpl he

/-- Witness for C5 at `predict("", "")`. -/
theorem predict_empty_shortcircuit_w :
    predict exampleClassifier "" "" = Except.ok ("Other", 0) :=
  predict_empty_shortcircuit exampleClassifier examplePipeline "" "" rfl (by decide)

/-- C10: with a loaded pipeline whose probability row is aligned with
its non-empty class list, `predict` only ever returns the catch-all
"Other" or a member of the pipeline's class vocabulary. -/
theorem predict_label_in_vocab (c : Classifier) (pl : Pipeline) (d m : String)
    (r : String × ℚ) (hpl : c.pipeline = some pl)
    (hlen : (pl.proba (combine d m)).length = pl.classes.length)
    (hcls : pl.classes ≠ [])
    (hr : predict c d m = Except.ok r) :
    r.1 = "Other" ∨ r.1 ∈ pl.classes := by
  by_cases hne : combine d m = ""
  · rw [predict_empty c pl d m hpl hne] at hr
    injection hr with hr
    rw [← hr]
    exact Or.inl rfl
  · rw [predict_eq c pl d m hpl hne] at hr
    split at hr
    · injection hr with hr
      rw [← hr]
      exact Or.inl rfl
    · injection hr with hr
      rw [← hr]
      right
      have hplen : pl.proba (combine d m) ≠ [] := by
        intro h0
        rw [h0] at hlen
        exact hcls (List.length_eq_zero.mp hlen.symm)
      have hlt : argmaxIdx (pl.proba (combine d m)) < pl.classes.length :=
        hlen ▸ argmaxIdx_lt _ hplen
      rw [List.getD_eq_getElem _ _ hlt]
      exact List.getElem_mem hlt

/-- Witness for C10 at a concrete below-threshold input. -/
theorem predict_label_in_vocab_w :
    ("Other", (7:ℚ)/20).1 = "Other" ∨
      ("Other", (7:ℚ)/20).1 ∈ examplePipeline.classes :=
  predict_label_in_vocab exampleClassifier examplePipeline "grocery shopping run" ""
    ("Other", 7/20) rfl (by decide) (by decide) (by with_unfolding_all decide)

/-! ### `get_top_predictions` -/

theorem length_argsortAsc (l : List ℚ) : (argsortAsc l).length = l.length := by
  unfold argsortAsc
  rw [(List.perm_insertionSort _ _).length_eq, List.length_range]

theorem mem_argsortAsc {l : List ℚ} {i : Nat} (h : i ∈ argsortAsc l) :
    i < l.length := by
  unfold argsortAsc at h
  rw [List.mem_insertionSort] at h
  exact List.mem_range.mp h

theorem sorted_argsortAsc (l : List ℚ) : (argsortAsc l).Pairwise (leKey l) :=
  List.sorted_insertionSort _ _

theorem sliceLast_sublist (n : Nat) (l : List α) : (sliceLast n l).Sublist l := by
  unfold sliceLast
  by_cases h : n = 0
  · rw [if_pos h]
  · rw [if_neg h]
    exact List.drop_sublist _ _

theorem length_sliceLast_pos {k : Nat} (hk : 1 ≤ k) (l : List α) :
    (sliceLast k l).length = min k l.length := by
  unfold sliceLast
  rw [if_neg (by omega), List.length_drop]
  omega

/-- C9 (amended): with a loaded pipeline whose probability row is
aligned with its class list, `top_k` returns the single entry
("Other", 0.0) on empty feature text; on non-empty feature text it
returns raw (undiscounted, unthresholded) probabilities sorted in
non-increasing order, but of length `min k (number of classes)` for
`k ≥ 1` — not always exactly `k` — and of length equal to the number of
classes for `k = 0` (the slice `a[-0:]` is the whole array). -/
theorem topk_contract (c : Classifier) (pl : Pipeline) (d m : String) (k : Nat)
    (hpl : c.pipeline = some pl)
    (hlen : (pl.proba (combine d m)).length = pl.classes.length) :
    (combine d m = "" → get_top_predictions c d m k = Except.ok [("Other", 0)]) ∧
    (combine d m ≠ "" → ∃ l, get_top_predictions c d m k = Except.ok l ∧
      (1 ≤ k → l.length = min k pl.classes.length) ∧
      (k = 0 → l.length = pl.classes.length) ∧
      l.Pairwise (fun a b => b.2 ≤ a.2) ∧
      ∀ p ∈ l, p.2 ∈ pl.proba (combine d m)) := by
  constructor
  · intro he
    simp only [get_top_predictions, hpl, he, if_pos]
  · intro hne
    refine ⟨(sliceLast k (argsortAsc (pl.proba (combine d m)))).reverse.map
        (fun i => (pl.classes.getD i "", (pl.proba (combine d m)).getD i 0)),
      by simp only [get_top_predictions, hpl, if_neg hne], ?_, ?_, ?_, ?_⟩
    · intro hk
      rw [List.length_map, List.length_reverse,
        length_sliceLast_pos hk, length_argsortAsc, hlen]
    · intro hk
      subst hk
      rw [List.length_map, List.length_reverse,
        show sliceLast 0 (argsortAsc (pl.proba (combine d m))) =
          argsortAsc (pl.proba (combine d m)) from rfl,
        length_argsortAsc, hlen]
    · refine List.Pairwise.map _ (fun i j hij => hij) ?_
      refine List.pairwise_reverse.mpr ?_
      exact List.Pairwise.sublist (sliceLast_sublist _ _) (sorted_argsortAsc _)
    · intro p hp
      rcases List.mem_map.mp hp with ⟨i, hi, rfl⟩
      have hi' : i ∈ argsortAsc (pl.proba (combine d m)) :=
        (sliceLast_sublist _ _).subset (List.mem_reverse.mp hi)
      have hilt := mem_argsortAsc hi'
      show (pl.proba (combine d m)).getD i 0 ∈ pl.proba (combine d m)
      rw [List.getD_eq_getElem _ _ hilt]
      exact List.getElem_mem hilt

/-- Witness for the amended C9 at k = 2 on the 3-class example. -/
theorem topk_contract_w :
    ∃ l, get_top_predictions exampleClassifier "coffee" "tea" 2 = Except.ok l ∧
      l.length = 2 ∧ l.Pairwise (fun a b => b.2 ≤ a.2) := by
  obtain ⟨-, h⟩ :=
    topk_contract exampleClassifier examplePipeline "coffee" "tea" 2 rfl (by decide)
  obtain ⟨l, hl, hlen, -, hpair, -⟩ := h (by decide)
  exact ⟨l, hl, by rw [hlen (by omega)]; decide, hpair⟩

/-- C9 counterexample: the claim promises length exactly `k` whenever
the feature text is non-empty, but with the 3-class example pipeline
and k = 4 the returned sequence has length 3 ≠ 4. -/
theorem topk_length_cex :
    combine "coffee" "tea" ≠ "" ∧
    examplePipeline.classes.length = 3 ∧
    (get_top_predictions exampleClassifier "coffee" "tea" 4).map List.length =
      Except.ok 3 ∧
    (3 : Nat) ≠ 4 := by
  refine ⟨by decide, rfl, ?_, by decide⟩
  with_unfolding_all decide

/-! ### Training -/

/-- C3 (amended): when after filtering fewer than two distinct
categories remain, `_train_and_save` does abort — but with the error
raised inside the downstream library calls (stratified split /
classifier fit), not with a dedicated `InsufficientDataError`: the
source performs no distinct-category check and defines no such
exception, so no run of `_train_and_save` can ever produce one. -/
theorem train_fewclasses_library_error (c : Classifier) (ds : Dataset)
    (best : Pipeline) (dumpOk : Bool)
    (hschema : (ds.hasDescription && ds.hasMerchant && ds.hasCategory) = true)
    (hfew : (distinctCategories (trainFilteredRows ds)).length < 2) :
    train_and_save c ds best dumpOk = (c, some TrainError.libraryError) ∧
    TrainError.libraryError ≠ TrainError.insufficientDataError ∧
    ∀ (cl : Classifier) (dss : Dataset) (bp : Pipeline) (dOk : Bool),
      (train_and_save cl dss bp dOk).2 ≠ some TrainError.insufficientDataError := by
  refine ⟨?_, by decide, ?_⟩
  · unfold train_and_save
    rw [if_pos hschema, if_pos hfew]
  · intro cl dss bp dOk
    by_cases hs : (dss.hasDescription && dss.hasMerchant && dss.hasCategory) = true <;>
      by_cases hl : (distinctCategories (trainFilteredRows dss)).length < 2 <;>
      cases dOk <;> simp [train_and_save, hs, hl]

/-- Witness for the amended C3 at a concrete one-category dataset. -/
theorem train_fewclasses_library_error_w :
    train_and_save ⟨none⟩ dsSingleClass examplePipeline true =
      (⟨none⟩, some TrainError.libraryError) ∧
    TrainError.libraryError ≠ TrainError.insufficientDataError ∧
    ∀ (cl : Classifier) (dss : Dataset) (bp : Pipeline) (dOk : Bool),
      (train_and_save cl dss bp dOk).2 ≠ some TrainError.insufficientDataError :=
  train_fewclasses_library_error ⟨none⟩ dsSingleClass examplePipeline true
    rfl (by decide)

/-- C3 counterexample: on a dataset whose filtered rows carry a single
category, training does not fail with an `InsufficientDataError` (the
outcome is the library error from the downstream split/fit). -/
theorem train_singleclass_cex :
    (distinctCategories (trainFilteredRows dsSingleClass)).length < 2 ∧
    (train_and_save ⟨none⟩ dsSingleClass examplePipeline true).2 =
      some TrainError.libraryError ∧
    (train_and_save ⟨none⟩ dsSingleClass examplePipeline true).2 ≠
      some TrainError.insufficientDataError :=
  ⟨by decide, by decide, by decide⟩

/-- C4 (amended): when `joblib.dump` fails, the exception propagates
out of `_train_and_save` (there is no `try`/`except` and nothing is
logged by this code), and the assignment `self.pipeline =
best_pipeline` on line 179 — which comes after the dump on line 173 —
is never executed: the classifier keeps its previous pipeline, so the
freshly fitted best pipeline is discarded, not retained. -/
theorem train_writefail_keeps_state (c : Classifier) (ds : Dataset) (best : Pipeline)
    (hschema : (ds.hasDescription && ds.hasMerchant && ds.hasCategory) = true)
    (hmany : ¬(distinctCategories (trainFilteredRows ds)).length < 2) :
    train_and_save c ds best false = (c, some TrainError.writeError) := by
  unfold train_and_save
  rw [if_pos hschema, if_neg hmany, if_neg Bool.false_ne_true]

/-- Witness for the amended C4 at a concrete two-category dataset. -/
theorem train_writefail_keeps_state_w :
    train_and_save ⟨none⟩ dsTwoClass examplePipeline false =
      (⟨none⟩, some TrainError.writeError) :=
  train_writefail_keeps_state ⟨none⟩ dsTwoClass examplePipeline rfl (by decide)

/-- C4 counterexample: a write failure after fitting on a valid
two-category dataset leaves the classifier's in-memory pipeline at its
prior value `none` — it is not set to the fitted best candidate. -/
theorem train_writefail_cex :
    (train_and_save ⟨none⟩ dsTwoClass examplePipeline false).2 =
      some TrainError.writeError ∧
    (train_and_save ⟨none⟩ dsTwoClass examplePipeline false).1.pipeline = none :=
  ⟨by decide, rfl⟩

end ExpenseTracker
